import Mathlib

/-!
Shallow embedding of the RBAC core of the datalink4tj backend
(models/permission.py, models/user.py, apis/routes.py,
services/route_service.py, services/permission_service.py,
db/migrations/migrate_route_permissions_data.py), together with
theorems settling the frozen claims about it.
-/

namespace RBAC

/-- JSON-like values, modelling what SQLAlchemy hands back from the JSON
`meta` column after decoding (Python dict / list / str / int / bool / None).
Numbers are modelled as integers (the stored authorization metadata uses
integer ids only).  `obj` field lists represent Python dicts: keys are
unique and lookup returns the unique binding. -/
inductive JValue where
  | null
  | bool (b : Bool)
  | num (n : Int)
  | str (s : String)
  | arr (elems : List JValue)
  | obj (fields : List (String × JValue))

/-- Python truthiness (`bool(x)`) of a decoded JSON value. -/
def JValue.truthy : JValue → Bool
  | .null => false
  | .bool b => b
  | .num n => n != 0
  | .str s => s != ""
  | .arr xs => !xs.isEmpty
  | .obj fs => !fs.isEmpty

/-- Python `str(x)` for a decoded JSON value.  Faithful for strings, ints,
bools and None.  For lists and dicts Python produces their `repr`, which
always starts with a bracket character; the only observation the code makes
of these strings is equality with the decimal representation of an integer
role id, which never starts with a bracket, so the fixed markers are
observationally faithful. -/
def pyStr : JValue → String
  | .str s => s
  | .num n => toString n
  | .bool true => "True"
  | .bool false => "False"
  | .null => "None"
  | .arr _ => "[unrepresentable]"
  | .obj _ => "\x7bunrepresentable\x7d"

/-- Python `meta.get(key)` on a decoded value (None when the value is not a
dict or the key is absent). -/
def jGet (v : JValue) (key : String) : Option JValue :=
  match v with
  | .obj fs => (fs.find? (fun f => f.1 == key)).map (fun f => f.2)
  | _ => none

/-- Python `key in meta` for a decoded value. -/
def jHasKey (v : JValue) (key : String) : Bool :=
  match v with
  | .obj fs => fs.any (fun f => f.1 == key)
  | _ => false

/-- Python `d[key] = v` on a dict represented as a field list: an existing
binding is overwritten in place, a new key is appended at the end
(insertion order, as in Python dicts). -/
def setField : List (String × JValue) → String → JValue → List (String × JValue)
  | [], k, v => [(k, v)]
  | (k0, v0) :: rest, k, v =>
      if k0 = k then (k0, v) :: rest else (k0, v0) :: setField rest k v

/-- The raw content of the `meta` column: either a string (which the code
feeds to `json.loads`; `parsed = none` models a string on which
`json.loads` raises) or an already structured JSON value. -/
inductive MetaVal where
  | str (s : String) (parsed : Option JValue)
  | json (v : JValue)

/-- Python truthiness of `route.meta` (None, the empty string and empty
containers are falsy). -/
def metaTruthy : Option MetaVal → Bool
  | none => false
  | some (.str s _) => s != ""
  | some (.json v) => v.truthy

/-- models/user.py: the reserved super-admin role name. -/
def SUPER_ADMIN_ROLE : String := "超级管理员"

/-- models/permission.py `PermissionLevel.get_level_value`:
`level_values.get(level, 0)`.  The argument is `Option String` because the
callers can pass `None` (a missing `module`/`level` field), which misses the
dict and yields 0 exactly like an unknown string. -/
def get_level_value : Option String → Nat
  | some "READ" => 1
  | some "WRITE" => 2
  | some "ADMIN" => 3
  | some "SUPER_ADMIN" => 4
  | _ => 0

/-- models/permission.py `Permission`: module, level, optional department
scope. -/
structure Permission where
  module : String
  level : String
  department_id : Option Int
deriving DecidableEq

/-- models/permission.py `Role`. -/
structure Role where
  id : Int
  name : String
  permissions : List Permission
deriving DecidableEq

/-- models/user.py `User`.  `department_name` models
`user.department.name` (`none` when `user.department` is `None`). -/
structure User where
  id : Int
  name : String
  department_id : Option Int
  department_name : Option String
  is_active : Bool
  roles : List Role

/-- models/route_permission.py `RoutePermission`: one (role, route) explicit
grant row.  The alembic migration puts a unique index `uix_role_route` on
this pair. -/
structure RoutePermission where
  role_id : Int
  route_id : Int
deriving DecidableEq

/-- models/route.py `Route` (the fields the authorization core reads). -/
structure Route where
  id : Int
  meta : Option MetaVal
  parent_id : Option Int
  sort_order : Option Int

/-- The backing store the services query: the four tables the
authorization core touches. -/
structure DB where
  routes : List Route
  roles : List Role
  users : List User
  routePermissions : List RoutePermission

/-- models/user.py `User.has_permission(module, level, target_department_id)`.
`module` and `level` are `Option String` because the route descriptor can
supply `None` (a missing field); a `None` module matches only `"ALL"`
permissions and a `None` level has ordinal 0, exactly as in Python. -/
def User.has_permission (u : User) (module level : Option String)
    (target_department_id : Option Int) : Bool :=
  u.roles.any fun role =>
    role.name == SUPER_ADMIN_ROLE ||
    role.permissions.any fun p =>
      (some p.module == module || p.module == "ALL") &&
      get_level_value (some p.level) ≥ get_level_value level &&
      (match p.department_id, target_department_id with
       | some d, some t => !(d != t && some d != u.department_id)
       | _, _ => true)

/-- models/permission.py `Role.has_permission(module, level)`: any held
permission whose module matches (or is the wildcard) with sufficient level
ordinal.  Note: unlike the User-level check, this method performs no
super-admin name test. -/
def Role.has_permission (role : Role) (module level : Option String) : Bool :=
  role.permissions.any fun p =>
    (some p.module == module || p.module == "ALL") &&
    get_level_value (some p.level) ≥ get_level_value level

/-- One constructor per literal `reason` string returned by
apis/routes.py `check_route_access`. -/
inductive Reason where
  | superAdmin
  | explicitGrant (matching_roles : List Int)
  | noMeta
  | publicRoute
  | allowedRolesMatch
  | modulePermGranted
  | modulePermDenied
  | stringPermGranted
  | stringPermDenied
  | deptPermGranted
  | deptPermDenied
  | noMatchingRule
deriving DecidableEq

/-- The response body of `check_route_access`: `has_access` plus `reason`. -/
structure Decision where
  has_access : Bool
  reason : Reason
deriving DecidableEq

/-- The observable outcome of a `check_route_access` request: 404 when the
route id is unknown, `raised` when an uncaught exception escapes (the
`module, level = permission.split(":")` unpack with more than one colon),
otherwise the decision. -/
inductive CheckResult where
  | notFound
  | raised
  | decision (d : Decision)
deriving DecidableEq

/-- Python `str(x)` of a string-or-None field when extracted from a
permission dict: keep strings, everything else behaves as None in
`has_permission` (a non-string module compares unequal to every stored
module string, and a non-string level has ordinal 0, same as None). -/
def asOptStr : Option JValue → Option String
  | some (.str s) => some s
  | _ => none

/-- Extract an integer from an optional JSON value (the `departmentId`
field of a permission dict); the stored data uses integers or omits the
field. -/
def asOptInt : Option JValue → Option Int
  | some (.num n) => some n
  | _ => none

/-- apis/routes.py `check_route_access`, translated clause by clause:
super-admin name check, route_permissions table check, `not route.meta`,
string decode with `{}` fallback, the
`not dict / no "permission" key / permission == "*"` public gate,
`allowed_roles` string-compared intersection, then the dict / `M:L` string /
bare department-name forms of `permission`, and the final deny. -/
def check_route_access (db : DB) (u : User) (route_id : Int) : CheckResult :=
  match db.routes.find? (fun r => r.id == route_id) with
  | none => .notFound
  | some route =>
    let is_superadmin := u.roles.any (fun r => r.name == SUPER_ADMIN_ROLE)
    if is_superadmin then .decision ⟨true, .superAdmin⟩
    else
      let user_role_ids := u.roles.map (fun r => r.id)
      let route_permissions := db.routePermissions.filter
        (fun p => p.route_id == route_id && decide (p.role_id ∈ user_role_ids))
      if !route_permissions.isEmpty then
        .decision ⟨true, .explicitGrant (route_permissions.map (fun p => p.role_id))⟩
      else if !metaTruthy route.meta then
        .decision ⟨true, .noMeta⟩
      else
        let meta : JValue :=
          match route.meta with
          | some (.str _ p) => p.getD (.obj [])
          | some (.json v) => v
          | none => .null
        match meta with
        | .obj fields =>
          let m := JValue.obj fields
          if !jHasKey m "permission" ||
             (match jGet m "permission" with
              | some (.str s) => s == "*"
              | _ => false) then
            .decision ⟨true, .publicRoute⟩
          else
            let user_role_ids_str := user_role_ids.map (fun i => toString i)
            let allowedHit : Bool :=
              match jGet m "allowed_roles" with
              | some (.arr entries) =>
                  entries.any (fun e => decide (pyStr e ∈ user_role_ids_str))
              | _ => false
            if allowedHit then .decision ⟨true, .allowedRolesMatch⟩
            else
              match jGet m "permission" with
              | some (.obj pf) =>
                let pm := JValue.obj pf
                let module := asOptStr (jGet pm "module")
                let level := asOptStr (jGet pm "level")
                let department_id := asOptInt (jGet pm "departmentId")
                if u.has_permission module level department_id then
                  .decision ⟨true, .modulePermGranted⟩
                else
                  .decision ⟨false, .modulePermDenied⟩
              | some (.str s) =>
                if s.contains ':' then
                  match s.splitOn ":" with
                  | [m0, l0] =>
                    if u.has_permission (some m0) (some l0) none then
                      .decision ⟨true, .stringPermGranted⟩
                    else
                      .decision ⟨false, .stringPermDenied⟩
                  | _ => .raised
                else
                  if (match u.department_name with
                      | some dn => dn == s
                      | none => false) then
                    .decision ⟨true, .deptPermGranted⟩
                  else
                    .decision ⟨false, .deptPermDenied⟩
              | _ => .decision ⟨false, .noMatchingRule⟩
        | _ => .decision ⟨true, .publicRoute⟩

/-! ### Claim C4: inactive users -/

/-- Concrete inactive user holding the super-admin role. -/
def c4User : User := ⟨1, "u", none, none, false, [⟨1, "超级管理员", []⟩]⟩

/-- Store containing `c4User`, one role and one unrestricted route. -/
def c4Db : DB := ⟨[⟨1, none, none, none⟩], [⟨1, "超级管理员", []⟩], [c4User], []⟩

/-- C4, counterexample: the claim says every permission check of an
inactive user resolves to deny (`has_permission` false, route check denies
with an "inactive" reason).  The code has no such check: an inactive user
holding the super-admin role gets `has_permission = true` and a route grant
with the super-admin reason. -/
theorem c4_counterexample :
    c4User.is_active = false ∧
    c4User.has_permission (some "USER") (some "READ") none = true ∧
    check_route_access c4Db c4User 1 = .decision ⟨true, .superAdmin⟩ := by
  decide

/-- C4, amended: neither `User.has_permission` nor `check_route_access`
consults `is_active`; an inactive user's checks resolve exactly as an
active user's (inactivity is enforced only at login, in
services/user.py `authenticate_user`). -/
theorem c4_amended (db : DB) (u : User) (b : Bool)
    (module level : Option String) (dept : Option Int) (rid : Int) :
    User.has_permission { u with is_active := b } module level dept =
      u.has_permission module level dept ∧
    check_route_access db { u with is_active := b } rid =
      check_route_access db u rid :=
  ⟨rfl, rfl⟩

/-! ### Claim C5: Role.has_permission and the super-admin sentinel -/

/-- C5, counterexample: the claim says a role named `超级管理员` (the
super-admin sentinel) has every permission even with an empty permission
set; `Role.has_permission` performs no name check and returns false. -/
theorem c5_counterexample :
    Role.has_permission ⟨1, "超级管理员", []⟩ (some "QA") (some "READ") = false := by
  decide

/-- C5, amended: `Role.has_permission` performs no sentinel-name check at
all (the sentinel is checked at the User level and in the route API
instead); for every role, named super-admin or not, it returns true iff
some held Permission's module equals the target module or `"ALL"` and that
Permission's level ordinal is ≥ the required level's ordinal. -/
theorem c5_amended (role : Role) (module level : Option String) :
    role.has_permission module level = true ↔
      ∃ p ∈ role.permissions,
        (some p.module = module ∨ p.module = "ALL") ∧
        get_level_value (some p.level) ≥ get_level_value level := by
  simp [Role.has_permission, List.any_eq_true, Bool.or_eq_true,
        Bool.and_eq_true, beq_iff_eq, decide_eq_true_eq]

/-! ### Claim C8: monotonicity over level ordinals -/

/-- C8: permission checking is monotone over the level ordinals: if a
request at level `l2` is granted and `ordinal(l1) ≤ ordinal(l2)` then the
request at `l1` is granted too, for any user, module and target
department. -/
theorem c8_level_monotonicity (u : User) (module : Option String)
    (l1 l2 : Option String) (dept : Option Int)
    (hord : get_level_value l1 ≤ get_level_value l2)
    (h : u.has_permission module l2 dept = true) :
    u.has_permission module l1 dept = true := by
  unfold User.has_permission at h ⊢
  rw [List.any_eq_true] at h ⊢
  obtain ⟨role, harole, hcond⟩ := h
  refine ⟨role, harole, ?_⟩
  rw [Bool.or_eq_true] at hcond ⊢
  rcases hcond with hsuper | hperm
  · exact Or.inl hsuper
  · right
    rw [List.any_eq_true] at hperm ⊢
    obtain ⟨p, hp, hpc⟩ := hperm
    refine ⟨p, hp, ?_⟩
    rw [Bool.and_eq_true, Bool.and_eq_true] at hpc
    obtain ⟨⟨hA, hB⟩, hC⟩ := hpc
    have hB2 : decide (get_level_value (some p.level) ≥ get_level_value l1) = true := by
      rw [decide_eq_true_eq] at hB ⊢
      exact le_trans hord hB
    rw [Bool.and_eq_true, Bool.and_eq_true]
    exact ⟨⟨hA, hB2⟩, hC⟩

/-- Concrete user for the C8 witness: one role holding QA WRITE. -/
def c8User : User :=
  ⟨1, "u", none, none, true, [⟨1, "QA-Writer", [⟨"QA", "WRITE", none⟩]⟩]⟩

/-- C8, witness: READ ≤ WRITE on the ordinal scale, the WRITE request is
granted, and monotonicity yields the READ grant. -/
theorem c8_witness :
    get_level_value (some "READ") ≤ get_level_value (some "WRITE") ∧
    c8User.has_permission (some "QA") (some "WRITE") none = true ∧
    c8User.has_permission (some "QA") (some "READ") none = true :=
  ⟨by decide, by decide,
   c8_level_monotonicity c8User (some "QA") (some "READ") (some "WRITE") none
     (by decide) (by decide)⟩

/-! ### Claim C2: malformed meta strings never raise -/

/-- C2: for a route whose stored `meta` is a string `json.loads` cannot
decode (`parsed = none`), and a non-super-admin user with no matching
explicit-grant row, `check_route_access` raises no exception and grants:
the descriptor is downgraded to the empty dict `{}` and the request falls
into the unrestricted/public gate.  (The code returns the no-requirement
reason for the falsy empty string and the public-route reason for every
other undecodable string; both are the spec's "unrestricted" downgrade
grant.) -/
theorem c2_malformed_meta_grants (db : DB) (u : User) (rid : Int)
    (route : Route) (s : String)
    (hactive : u.is_active = true)
    (hfind : db.routes.find? (fun r => r.id == rid) = some route)
    (hmeta : route.meta = some (.str s none))
    (hsuper : u.roles.any (fun r => r.name == SUPER_ADMIN_ROLE) = false)
    (hgrant : db.routePermissions.filter
        (fun p => p.route_id == rid &&
          decide (p.role_id ∈ u.roles.map (fun r => r.id))) = []) :
    check_route_access db u rid =
      .decision ⟨true, if s = "" then .noMeta else .publicRoute⟩ := by
  unfold check_route_access
  rw [hfind]
  simp only [hsuper, hgrant, hmeta]
  by_cases hs : s = ""
  · subst hs
    simp [metaTruthy]
  · simp [metaTruthy, hs, jHasKey, Option.getD]

/-- Concrete store for the C2 witness: one route whose meta is the
undecodable string `not json`, one ordinary role, no grant rows. -/
def c2Db : DB :=
  ⟨[⟨1, some (.str "not json" none), none, none⟩], [⟨2, "Other", []⟩], [], []⟩

/-- Concrete non-super-admin user for the C2 witness. -/
def c2User : User := ⟨1, "u", none, none, true, [⟨2, "Other", []⟩]⟩

/-- C2, witness: the malformed-meta route grants with the public-route
downgrade reason for a concrete user and store. -/
theorem c2_witness :
    check_route_access c2Db c2User 1 = .decision ⟨true, .publicRoute⟩ := by
  have h := c2_malformed_meta_grants c2Db c2User 1
    ⟨1, some (.str "not json" none), none, none⟩ "not json"
    rfl rfl rfl (by decide) (by decide)
  simpa using h

/-! ### services/route_service.py: set_route_permissions -/

/-- SQLAlchemy mutation of one row found by id: the first route with the
given id is replaced (ids are unique in the table; `find?`-based reads see
the replacement). -/
def replaceRouteById : List Route → Int → Route → List Route
  | [], _, _ => []
  | r :: rs, rid, nr =>
      if r.id = rid then nr :: rs else r :: replaceRouteById rs rid nr

/-- Same for the users table. -/
def replaceUserById : List User → Int → User → List User
  | [], _, _ => []
  | x :: xs, uid, nu =>
      if x.id = uid then nu :: xs else x :: replaceUserById xs uid nu

/-- The meta rewrite performed by `set_route_permissions`: the current
meta is decoded (a string through `json.loads`, `{}` on failure), coerced
to a dict, then `allowed_roles` is set to the ids as strings,
`isRoleBased` to True, `permission` to None and `public` to False. -/
def rewriteMetaFields (route : Route) (role_ids : List Int) :
    List (String × JValue) :=
  let fields0 : List (String × JValue) :=
    match route.meta with
    | some (.str _ p) =>
        match p.getD (.obj []) with
        | .obj fs => fs
        | _ => []
    | some (.json (.obj fs)) => fs
    | _ => []
  let f1 := setField fields0 "allowed_roles"
    (.arr (role_ids.map (fun i => .str (toString i))))
  let f2 := setField f1 "isRoleBased" (.bool true)
  let f3 := setField f2 "permission" .null
  setField f3 "public" (.bool false)

/-- services/route_service.py `RouteService.set_route_permissions`:
route lookup, role validation (all-or-nothing: any unknown id returns
False before mutating), delete of the route's existing rows, insert of one
row per given role id, and the mirrored meta rewrite
(`allowed_roles` = the ids as strings, `isRoleBased` = True,
`permission` = None, `public` = False).  The result is `none` when the
commit raises: the table's unique index `uix_role_route` on
(role_id, route_id) rejects duplicated role ids (the new rows cannot
collide with rows of other routes, whose route_id differs), and the code
then rolls back and re-raises, leaving the store unchanged. -/
def set_route_permissions (db : DB) (route_id : Int) (role_ids : List Int) :
    Option (DB × Bool) :=
  match db.routes.find? (fun r => r.id == route_id) with
  | none => some (db, false)
  | some route =>
    if !(role_ids.filter (fun i =>
          decide (i ∉ (db.roles.filter
            (fun r => decide (r.id ∈ role_ids))).map (fun r => r.id)))).isEmpty then
      some (db, false)
    else if (role_ids.map (fun i => RoutePermission.mk i route_id)).Nodup then
      some ({ db with
                routes := replaceRouteById db.routes route_id
                  { route with
                      meta := some (.json (.obj (rewriteMetaFields route role_ids))) },
                routePermissions :=
                  db.routePermissions.filter (fun p => !(p.route_id == route_id)) ++
                  role_ids.map (fun i => RoutePermission.mk i route_id) }, true)
    else none

/-- services/permission_service.py `RoleService.assign_user_roles`: the
user's role set is replaced wholesale; unknown role ids are skipped with a
warning rather than failing the operation. -/
def assign_user_roles (db : DB) (user_id : Int) (role_ids : List Int) :
    Option (DB × User) :=
  match db.users.find? (fun x => x.id == user_id) with
  | none => none
  | some user =>
    let newRoles := role_ids.filterMap
      (fun rid => db.roles.find? (fun r => r.id == rid))
    let user2 := { user with roles := newRoles }
    some ({ db with users := replaceUserById db.users user_id user2 }, user2)

/-- The explicit-grant rows of one route. -/
def routePermsFor (db : DB) (rid : Int) : List RoutePermission :=
  db.routePermissions.filter (fun p => p.route_id == rid)

/-! Dict-update lemmas for the meta rewrite. -/

theorem setField_find_same (fs : List (String × JValue)) (k : String) (v : JValue) :
    jGet (.obj (setField fs k v)) k = some v := by
  induction fs with
  | nil =>
    show jGet (.obj [(k, v)]) k = some v
    simp [jGet]
  | cons hd tl ih =>
    obtain ⟨k0, v0⟩ := hd
    by_cases h0 : k0 = k
    · simp [setField, if_pos h0, jGet, h0]
    · simp only [setField, if_neg h0]
      simpa [jGet, List.find?_cons, h0] using ih

theorem setField_find_other (fs : List (String × JValue)) (k k2 : String)
    (v : JValue) (hk : k2 ≠ k) :
    jGet (.obj (setField fs k v)) k2 = jGet (.obj fs) k2 := by
  induction fs with
  | nil =>
    show jGet (.obj [(k, v)]) k2 = jGet (.obj []) k2
    have hne : k ≠ k2 := Ne.symm hk
    simp [jGet, List.find?_cons, hne]
  | cons hd tl ih =>
    obtain ⟨k0, v0⟩ := hd
    by_cases h0 : k0 = k
    · have h2 : k0 ≠ k2 := fun h => hk (h ▸ h0)
      simp [setField, if_pos h0, jGet, List.find?_cons, h2]
    · simp only [setField, if_neg h0]
      by_cases h2 : k0 = k2
      · simp [jGet, List.find?_cons, h2]
      · simpa [jGet, List.find?_cons, h2] using ih

theorem find?_replaceRouteById (rs : List Route) (rid : Int) (nr r : Route)
    (hfind : rs.find? (fun x => x.id == rid) = some r)
    (hnr : nr.id = rid) :
    (replaceRouteById rs rid nr).find? (fun x => x.id == rid) = some nr := by
  induction rs with
  | nil => simp [List.find?] at hfind
  | cons hd tl ih =>
    by_cases hh : hd.id = rid
    · simp [replaceRouteById, if_pos hh, List.find?_cons, hnr]
    · rw [List.find?_cons_of_neg _ (by simpa using hh)] at hfind
      simp only [replaceRouteById, if_neg hh]
      rw [List.find?_cons_of_neg _ (by simpa using hh)]
      exact ih hfind

/-! Generic filter lemmas used by the set/check interaction proofs. -/

theorem filter_filter_nil {α : Type} (p q : α → Bool)
    (h : ∀ x, p x = true → q x = false) :
    ∀ l : List α, (l.filter p).filter q = []
  | [] => rfl
  | hd :: tl => by
    rw [List.filter_cons]
    cases hp : p hd with
    | false =>
      rw [if_neg (by simp)]
      exact filter_filter_nil p q h tl
    | true =>
      rw [if_pos rfl, List.filter_cons, h hd hp, if_neg (by simp)]
      exact filter_filter_nil p q h tl

theorem filter_all_true {α : Type} (p : α → Bool) :
    ∀ l : List α, (∀ x ∈ l, p x = true) → l.filter p = l
  | [], _ => rfl
  | hd :: tl, h => by
    rw [List.filter_cons, h hd (by simp), if_pos rfl]
    rw [filter_all_true p tl (fun x hx => h x (by simp [hx]))]

theorem filter_none_of_pred {α : Type} (p : α → Bool) :
    ∀ l : List α, (∀ x ∈ l, p x = false) → l.filter p = []
  | [], _ => rfl
  | hd :: tl, h => by
    rw [List.filter_cons, h hd (by simp), if_neg (by simp)]
    exact filter_none_of_pred p tl (fun x hx => h x (by simp [hx]))

/-- Characterization of a successful `set_route_permissions` call: the
route was found, the inserted rows are duplicate-free, and the new store
carries the replaced route and the rewritten grant rows. -/
theorem set_route_permissions_success (db db2 : DB) (rid : Int) (ids : List Int)
    (h : set_route_permissions db rid ids = some (db2, true)) :
    ∃ route, db.routes.find? (fun r => r.id == rid) = some route ∧
      (ids.map (fun i => RoutePermission.mk i rid)).Nodup ∧
      db2 = { db with
        routes := replaceRouteById db.routes rid
          { route with meta := some (.json (.obj (rewriteMetaFields route ids))) },
        routePermissions :=
          db.routePermissions.filter (fun p => !(p.route_id == rid)) ++
          ids.map (fun i => RoutePermission.mk i rid) } := by
  unfold set_route_permissions at h
  split at h
  · simp at h
  · rename_i route2 heq
    split at h
    · simp at h
    · split at h
      · rename_i hnodup
        have hdb := congrArg Prod.fst (Option.some.inj h)
        exact ⟨route2, heq, hnodup, hdb.symm⟩
      · simp at h

/-! ### Claim C7: set_route_permissions keeps both representations equal -/

/-- C7: after a successful `set_route_permissions(route, roleIds)` the
grant rows of the route are exactly one row per given role id (the ids are
necessarily duplicate-free, since the unique index rejects duplicates at
commit), the rewritten meta lists exactly those ids as strings in
`allowed_roles`, and its `permission` field is cleared to None (with
`public` forced to False), so the legacy and explicit representations
describe the same role set. -/
theorem c7_set_route_permissions_sync (db db2 : DB) (rid : Int) (ids : List Int)
    (h : set_route_permissions db rid ids = some (db2, true)) :
    ids.Nodup ∧
    routePermsFor db2 rid = ids.map (fun i => RoutePermission.mk i rid) ∧
    ∃ fs, (db2.routes.find? (fun r => r.id == rid)).map (fun r => r.meta) =
            some (some (.json (.obj fs))) ∧
      jGet (.obj fs) "allowed_roles" =
        some (.arr (ids.map (fun i => .str (toString i)))) ∧
      jGet (.obj fs) "permission" = some .null ∧
      jGet (.obj fs) "public" = some (.bool false) := by
  obtain ⟨route, hfind, hnodup, hdb2⟩ := set_route_permissions_success db db2 rid ids h
  refine ⟨List.Nodup.of_map _ hnodup, ?_, ?_⟩
  · subst hdb2
    unfold routePermsFor
    rw [List.filter_append]
    rw [filter_filter_nil (fun p => !(p.route_id == rid))
          (fun p => p.route_id == rid) (by intro x hx; simpa using hx) db.routePermissions]
    rw [filter_all_true _ _ (by intro x hx; obtain ⟨i, -, rfl⟩ := List.mem_map.mp hx; simp)]
    rfl
  · refine ⟨rewriteMetaFields route ids, ?_, ?_, ?_, ?_⟩
    · subst hdb2
      have hnr : ({ route with
          meta := some (.json (.obj (rewriteMetaFields route ids))) } : Route).id = rid := by
        have := List.find?_some hfind
        simpa using this
      have hfr := find?_replaceRouteById db.routes rid
        { route with meta := some (.json (.obj (rewriteMetaFields route ids))) }
        route hfind hnr
      show (List.find? _ _).map _ = _
      rw [hfr]
      rfl
    · show jGet (.obj (rewriteMetaFields route ids)) "allowed_roles" = _
      unfold rewriteMetaFields
      rw [setField_find_other _ _ _ _ (by decide),
          setField_find_other _ _ _ _ (by decide),
          setField_find_other _ _ _ _ (by decide),
          setField_find_same]
    · show jGet (.obj (rewriteMetaFields route ids)) "permission" = _
      unfold rewriteMetaFields
      rw [setField_find_other _ _ _ _ (by decide), setField_find_same]
    · show jGet (.obj (rewriteMetaFields route ids)) "public" = _
      unfold rewriteMetaFields
      rw [setField_find_same]

/-- Concrete store for the C7 witness. -/
def c7Db : DB :=
  ⟨[⟨1, some (.json (.obj [("permission", .str "QA:READ")])), none, none⟩],
   [⟨7, "Inspector", []⟩, ⟨9, "Other", []⟩], [], [⟨7, 1⟩]⟩

/-- The store produced by the successful call of the C7 witness. -/
def c7Db2 : DB :=
  ⟨[⟨1, some (.json (.obj [("permission", .null),
                           ("allowed_roles", .arr [.str "7", .str "9"]),
                           ("isRoleBased", .bool true),
                           ("public", .bool false)])), none, none⟩],
   [⟨7, "Inspector", []⟩, ⟨9, "Other", []⟩], [], [⟨7, 1⟩, ⟨9, 1⟩]⟩

/-- C7, witness: setting route 1 to roles [7, 9] succeeds on `c7Db` and
yields exactly one grant row per given role id. -/
theorem c7_witness :
    set_route_permissions c7Db 1 [7, 9] = some (c7Db2, true) ∧
    routePermsFor c7Db2 1 = [7, 9].map (fun i => RoutePermission.mk i 1) := by
  have hset : set_route_permissions c7Db 1 [7, 9] = some (c7Db2, true) := by rfl
  exact ⟨hset, (c7_set_route_permissions_sync c7Db c7Db2 1 [7, 9] hset).2.1⟩

/-! ### Claim C9: unknown role ids in set_route_permissions -/

/-- C9: `set_route_permissions` is all-or-nothing on unknown role ids: if
any given role id does not exist in the roles table the call returns False
with the store completely unchanged (the validation runs before any delete
or insert); by contrast `assign_user_roles` with the same id list still
succeeds, skipping the unknown ids. -/
theorem c9_unknown_role_all_or_nothing (db : DB) (rid uid : Int)
    (ids : List Int) (b : Int) (u : User)
    (hb : b ∈ ids)
    (hunknown : ∀ r ∈ db.roles, r.id ≠ b)
    (huser : db.users.find? (fun x => x.id == uid) = some u) :
    set_route_permissions db rid ids = some (db, false) ∧
    (assign_user_roles db uid ids).isSome = true := by
  have hnotval : b ∉ (db.roles.filter
      (fun r => decide (r.id ∈ ids))).map (fun r => r.id) := by
    intro hmem
    obtain ⟨r, hr, hrid⟩ := List.mem_map.mp hmem
    exact hunknown r (List.mem_filter.mp hr).1 hrid
  have hbinv : b ∈ ids.filter (fun i =>
      decide (i ∉ (db.roles.filter
        (fun r => decide (r.id ∈ ids))).map (fun r => r.id))) :=
    List.mem_filter.mpr ⟨hb, by simpa using hnotval⟩
  constructor
  · unfold set_route_permissions
    split
    · rfl
    · have hcond : (!(ids.filter (fun i =>
          decide (i ∉ (db.roles.filter
            (fun r => decide (r.id ∈ ids))).map (fun r => r.id)))).isEmpty) = true := by
        cases hl : ids.filter (fun i =>
            decide (i ∉ (db.roles.filter
              (fun r => decide (r.id ∈ ids))).map (fun r => r.id))) with
        | nil => rw [hl] at hbinv; exact absurd hbinv (List.not_mem_nil b)
        | cons a as => rfl
      rw [if_pos hcond]
  · unfold assign_user_roles
    rw [huser]
    rfl

/-- Concrete store for the C9 witness: one route, one role (id 7), one
user (id 5). -/
def c9Db : DB :=
  ⟨[⟨1, none, none, none⟩], [⟨7, "Inspector", []⟩],
   [⟨5, "u", none, none, true, []⟩], []⟩

/-- C9, witness: role id 99 is unknown, `set_route_permissions` fails with
the store unchanged while `assign_user_roles` still succeeds. -/
theorem c9_witness :
    (99 : Int) ∈ [7, 99] ∧
    set_route_permissions c9Db 1 [7, 99] = some (c9Db, false) ∧
    (assign_user_roles c9Db 5 [7, 99]).isSome = true := by
  have h := c9_unknown_role_all_or_nothing c9Db 1 5 [7, 99] 99
    ⟨5, "u", none, none, true, []⟩
    (by decide)
    (by intro r hr; simp only [c9Db] at hr; rw [List.mem_singleton] at hr; subst hr; decide)
    rfl
  exact ⟨by decide, h.1, h.2⟩

/-! ### Claim C1: allowed_roles-only descriptors and explicit grants -/

/-- Role 9, held by the C1 user. -/
def c1Role9 : Role := ⟨9, "Other", []⟩

/-- The C1 route: meta is exactly `{"allowed_roles": ["7"]}`. -/
def c1Route : Route :=
  ⟨1, some (.json (.obj [("allowed_roles", .arr [.str "7"])])), none, none⟩

/-- C1 store: roles 7 and 9 exist, no explicit grant rows. -/
def c1Db : DB := ⟨[c1Route], [⟨7, "Inspector", []⟩, c1Role9], [], []⟩

/-- The C1 user: active, holds exactly role 9. -/
def c1User : User := ⟨1, "u", none, none, true, [c1Role9]⟩

/-- C1, counterexample: the claim says the check denies with the
no-matching-rule reason.  In the code the `allowed_roles` gate is only
reached when the meta has a `permission` key, so a descriptor that is
exactly `{"allowed_roles": ["7"]}` falls into the public-route branch and
grants. -/
theorem c1_counterexample :
    check_route_access c1Db c1User 1 = .decision ⟨true, .publicRoute⟩ ∧
    check_route_access c1Db c1User 1 ≠ .decision ⟨false, .noMatchingRule⟩ := by
  decide

/-- C1, amended: for an active non-super-admin user whose only role has id
9 and a route whose meta is exactly `{"allowed_roles": ["7"]}` with no
explicit-grant rows, `check_route_access` GRANTS with the public-route
reason (a descriptor without a `permission` key never restricts); after a
successful `set_route_permissions(route, [9])` the same call grants with
the explicit-grant reason listing role 9. -/
theorem c1_amended (db db2 : DB) (u : User) (rid : Int) (route : Route) (r9 : Role)
    (hfind : db.routes.find? (fun r => r.id == rid) = some route)
    (hmeta : route.meta = some (.json (.obj [("allowed_roles", .arr [.str "7"])])))
    (hroles : u.roles = [r9]) (hr9 : r9.id = 9) (hname : r9.name ≠ "超级管理员")
    (hnogrant : ∀ p ∈ db.routePermissions, p.route_id ≠ rid)
    (hset : set_route_permissions db rid [9] = some (db2, true)) :
    check_route_access db u rid = .decision ⟨true, .publicRoute⟩ ∧
    check_route_access db2 u rid = .decision ⟨true, .explicitGrant [9]⟩ := by
  have hsuper : u.roles.any (fun r => r.name == SUPER_ADMIN_ROLE) = false := by
    rw [hroles]
    simp [SUPER_ADMIN_ROLE, hname]
  constructor
  · unfold check_route_access
    rw [hfind]
    have hgrant : db.routePermissions.filter (fun p =>
        p.route_id == rid && decide (p.role_id ∈ u.roles.map (fun r => r.id))) = [] :=
      filter_none_of_pred _ _ (by intro p hp; simp [hnogrant p hp])
    simp only [hsuper, hgrant, hmeta]
    simp [metaTruthy, JValue.truthy, jHasKey]
  · obtain ⟨route2, hfind2, hnodup, hdb2⟩ :=
      set_route_permissions_success db db2 rid [9] hset
    subst hdb2
    unfold check_route_access
    have hnr : ({ route2 with
        meta := some (.json (.obj (rewriteMetaFields route2 [9]))) } : Route).id = rid := by
      have := List.find?_some hfind2
      simpa using this
    have hfr := find?_replaceRouteById db.routes rid
      { route2 with meta := some (.json (.obj (rewriteMetaFields route2 [9]))) }
      route2 hfind2 hnr
    rw [hfr]
    have hgrant2 : (db.routePermissions.filter (fun p => !(p.route_id == rid)) ++
        [9].map (fun i => RoutePermission.mk i rid)).filter (fun p =>
          p.route_id == rid && decide (p.role_id ∈ u.roles.map (fun r => r.id))) =
        [RoutePermission.mk 9 rid] := by
      rw [List.filter_append]
      rw [filter_filter_nil _ _ (by
        intro x hx
        rw [Bool.not_eq_true'] at hx
        simp [hx]) db.routePermissions]
      rw [hroles]
      simp [List.filter_cons, hr9]
    simp only [hsuper, hgrant2]
    simp

/-- The store after the C1 witness's `set_route_permissions` call. -/
def c1Db2 : DB :=
  ⟨[⟨1, some (.json (.obj [("allowed_roles", .arr [.str "9"]),
                           ("isRoleBased", .bool true),
                           ("permission", .null),
                           ("public", .bool false)])), none, none⟩],
   [⟨7, "Inspector", []⟩, c1Role9], [], [⟨9, 1⟩]⟩

/-- C1, witness: the amended scenario observed on a concrete store. -/
theorem c1_witness :
    set_route_permissions c1Db 1 [9] = some (c1Db2, true) ∧
    check_route_access c1Db c1User 1 = .decision ⟨true, .publicRoute⟩ ∧
    check_route_access c1Db2 c1User 1 = .decision ⟨true, .explicitGrant [9]⟩ := by
  have hset : set_route_permissions c1Db 1 [9] = some (c1Db2, true) := by rfl
  have h := c1_amended c1Db c1Db2 c1User 1 c1Route c1Role9
    rfl rfl rfl rfl (by decide) (by simp [c1Db]) hset
  exact ⟨hset, h.1, h.2⟩

/-! ### services/permission_service.py: _build_route_tree -/

/-- Python truthiness of `route.parent_id` (`if not route.parent_id`):
None and 0 are falsy. -/
def parentTruthy (r : Route) : Bool :=
  match r.parent_id with
  | some n => n != 0
  | none => false

/-- `route.sort_order or 0`. -/
def sortVal (r : Route) : Int := r.sort_order.getD 0

/-- A node of the assembled route tree (the dict with a `children` list
built by `_build_route_tree`; only the fields the claims observe are
kept). -/
inductive RTree where
  | node (id : Int) (parent_id : Option Int) (sort_order : Int)
         (children : List RTree)

def RTree.id : RTree → Int
  | .node i _ _ _ => i

def RTree.sortOrder : RTree → Int
  | .node _ _ s _ => s

/-- Stable ascending insertion used to model Python's stable
`list.sort(key=sort_order)`: each element is inserted after every already
placed element with key ≤ its key, so elements with equal keys keep their
original relative order; a stable ascending sort is unique, hence this
equals Python's sort. -/
def insertBySort (x : RTree) : List RTree → List RTree
  | [] => [x]
  | y :: ys => if y.sortOrder ≤ x.sortOrder then y :: insertBySort x ys
               else x :: y :: ys

def sortLevel (ts : List RTree) : List RTree :=
  ts.foldl (fun acc x => insertBySort x acc) []

/-- The children attached to the node with id `pid` by the second pass:
routes with a truthy `parent_id` equal to `pid` (the `in routeMap` part of
the condition holds because `pid` is the id of a route in the list), in
list order. -/
def childrenOf (routes : List Route) (pid : Int) : List Route :=
  routes.filter (fun c => parentTruthy c && c.parent_id == some pid)

/-- Materialization of one node of the tree built by `_build_route_tree`,
children recursively attached and every level sorted.  `fuel` bounds the
recursion depth; the theorems use `routes.length`, which covers every
acyclic parent chain, and the dropped-node theorem below holds for every
fuel. -/
def buildNode (routes : List Route) : Nat → Route → RTree
  | 0, r => .node r.id r.parent_id (sortVal r) []
  | fuel + 1, r =>
      .node r.id r.parent_id (sortVal r)
        (sortLevel ((childrenOf routes r.id).map (buildNode routes fuel)))

/-- services/permission_service.py `PermissionService._build_route_tree`:
empty input short-circuit, roots = the routes whose `parent_id` is falsy
(None or 0), children attached only under parents present in the list,
every level sorted by `sort_order`.  A route with a truthy `parent_id`
whose parent is not in the list is in `routeMap` but reachable from no
root, so it does not occur in the returned forest. -/
def build_route_tree (routes : List Route) : List RTree :=
  if routes.isEmpty then []
  else
    sortLevel ((routes.filter (fun r => !parentTruthy r)).map
      (buildNode routes routes.length))

mutual

def treeContains : RTree → Int → Bool
  | .node i _ _ cs, x => i == x || forestContains cs x

def forestContains : List RTree → Int → Bool
  | [], _ => false
  | t :: ts, x => treeContains t x || forestContains ts x

end

theorem forestContains_eq_any (ts : List RTree) (x : Int) :
    forestContains ts x = ts.any (fun t => treeContains t x) := by
  induction ts with
  | nil => rfl
  | cons hd tl ih => simp [forestContains, ih]

theorem mem_insertBySort (a x : RTree) (l : List RTree) :
    a ∈ insertBySort x l ↔ a = x ∨ a ∈ l := by
  induction l with
  | nil => simp [insertBySort]
  | cons y ys ih =>
    by_cases hy : y.sortOrder ≤ x.sortOrder
    · simp only [insertBySort, if_pos hy, List.mem_cons, ih]
      tauto
    · simp only [insertBySort, if_neg hy, List.mem_cons]

theorem mem_sortLevel (a : RTree) (ts : List RTree) :
    a ∈ sortLevel ts ↔ a ∈ ts := by
  have key : ∀ (l : List RTree) (acc : List RTree),
      a ∈ l.foldl (fun acc x => insertBySort x acc) acc ↔ a ∈ acc ∨ a ∈ l := by
    intro l
    induction l with
    | nil => intro acc; simp
    | cons hd tl ih =>
      intro acc
      rw [List.foldl_cons, ih, mem_insertBySort]
      simp only [List.mem_cons]
      tauto
  unfold sortLevel
  rw [key ts []]
  simp

/-- Injectivity of `Route.id` on a list with duplicate-free ids. -/
theorem route_id_inj (routes : List Route)
    (hnd : (routes.map (fun r => r.id)).Nodup) :
    ∀ a ∈ routes, ∀ b ∈ routes, a.id = b.id → a = b := by
  intro a ha b hb hab
  exact List.inj_on_of_nodup_map hnd ha hb hab

/-- Key lemma for C3: a route whose `parent_id` points outside the list
occurs in no subtree built from a route other than itself. -/
theorem buildNode_not_contains (routes : List Route) (x : Route) (p : Int)
    (hnd : (routes.map (fun r => r.id)).Nodup)
    (hx : x ∈ routes)
    (hpx : x.parent_id = some p)
    (hpnot : ∀ q ∈ routes, q.id ≠ p) :
    ∀ (fuel : Nat) (r : Route), r ∈ routes → r ≠ x →
      treeContains (buildNode routes fuel r) x.id = false := by
  intro fuel
  induction fuel with
  | zero =>
    intro r hr hrx
    show (r.id == x.id || forestContains [] x.id) = false
    have hne : r.id ≠ x.id := fun h => hrx (route_id_inj routes hnd r hr x hx h)
    simp [forestContains, hne]
  | succ n ih =>
    intro r hr hrx
    show (r.id == x.id ||
      forestContains (sortLevel ((childrenOf routes r.id).map
        (buildNode routes n))) x.id) = false
    have hne : r.id ≠ x.id := fun h => hrx (route_id_inj routes hnd r hr x hx h)
    have hsub : forestContains (sortLevel ((childrenOf routes r.id).map
        (buildNode routes n))) x.id = false := by
      rw [forestContains_eq_any, List.any_eq_false]
      intro t ht
      rw [mem_sortLevel] at ht
      obtain ⟨c, hc, rfl⟩ := List.mem_map.mp ht
      obtain ⟨hcr, hcond⟩ := List.mem_filter.mp hc
      have hcx : c ≠ x := by
        intro hcx
        subst hcx
        rw [Bool.and_eq_true] at hcond
        have h2 := hcond.2
        rw [hpx] at h2
        have : p = r.id := by simpa using h2
        exact hpnot r hr this.symm
      simp [ih c hcr hcx]
    simp [hne, hsub]

/-! ### Claim C3: orphaned accessible nodes in the tree assembler -/

/-- The C3 counterexample route: accessible, `parent_id = 1`, but no route
with id 1 in the accessible set. -/
def c3Route : Route := ⟨2, none, some 1, none⟩

/-- C3, counterexample: the claim says an accessible node whose parent is
not in the accessible set still appears as a root of its own subtree.  The
builder only roots nodes with falsy `parent_id` and only attaches children
under present parents, so the singleton list containing the orphan
produces the EMPTY forest: the node is silently dropped. -/
theorem c3_counterexample :
    build_route_tree [c3Route] = [] ∧
    forestContains (build_route_tree [c3Route]) c3Route.id = false ∧
    c3Route.parent_id = some 1 ∧ (∀ q ∈ [c3Route], q.id ≠ 1) := by
  refine ⟨rfl, rfl, rfl, ?_⟩
  intro q hq
  rw [List.mem_singleton] at hq
  subst hq
  decide

/-- C3, amended: for every accessible set with duplicate-free ids, an
accessible node whose `parent_id` is truthy (non-null, non-zero) but whose
parent is not in the set appears NOWHERE in the returned forest — neither
as a root (roots are exactly the falsy-`parent_id` nodes) nor inside any
subtree: it is silently dropped from the output. -/
theorem c3_amended (routes : List Route) (x : Route) (p : Int)
    (hnd : (routes.map (fun r => r.id)).Nodup)
    (hx : x ∈ routes)
    (hpx : x.parent_id = some p) (hp0 : p ≠ 0)
    (hpnot : ∀ q ∈ routes, q.id ≠ p) :
    forestContains (build_route_tree routes) x.id = false := by
  have hemp : routes.isEmpty = false := by
    cases routes with
    | nil => exact absurd hx (List.not_mem_nil x)
    | cons a as => rfl
  unfold build_route_tree
  rw [if_neg (by simp [hemp])]
  rw [forestContains_eq_any, List.any_eq_false]
  intro t ht
  rw [mem_sortLevel] at ht
  obtain ⟨r, hrf, rfl⟩ := List.mem_map.mp ht
  obtain ⟨hr, hroot⟩ := List.mem_filter.mp hrf
  have hrx : r ≠ x := by
    intro hrx
    subst hrx
    rw [Bool.not_eq_true'] at hroot
    rw [parentTruthy, hpx] at hroot
    simp at hroot
    exact hp0 hroot
  simp [buildNode_not_contains routes x p hnd hx hpx hpnot routes.length r hr hrx]

/-- C3, witness: the amended theorem applied to the concrete orphan. -/
theorem c3_witness :
    ([c3Route].map (fun r => r.id)).Nodup ∧
    c3Route ∈ [c3Route] ∧ c3Route.parent_id = some 1 ∧
    forestContains (build_route_tree [c3Route]) c3Route.id = false := by
  refine ⟨by decide, by simp, rfl, ?_⟩
  exact c3_amended [c3Route] c3Route 1 (by decide) (by simp) rfl (by decide)
    (by intro q hq; rw [List.mem_singleton] at hq; subst hq; decide)

/-! ### services/route_service.py: get_route_permissions -/

/-- Python iteration over a decoded JSON value (`for r in allowed_roles`):
lists yield their elements, strings their characters, dicts their keys;
ints, bools and None raise TypeError (`none`). -/
def pyIter : JValue → Option (List JValue)
  | .arr xs => some xs
  | .str s => some (s.data.map (fun c => JValue.str (String.mk [c])))
  | .obj fs => some (fs.map (fun f => JValue.str f.1))
  | _ => none

/-- Value of an all-ASCII-digit character list (`int(s)` for a string that
passed `str.isdigit`). -/
def digitsToNat (cs : List Char) : Option Nat :=
  if cs.isEmpty then none
  else if cs.all (fun c => c.isDigit) then
    some (cs.foldl (fun a c => a * 10 + (c.toNat - 48)) 0)
  else none

/-- `int(r) for r in ... if str(r).isdigit()`: non-negative ints and
all-digit strings pass, everything else (negative ints, bools, None,
lists, dicts — whose `str` contains non-digits) is filtered out. -/
def pyDigitInt : JValue → Option Int
  | .str s => (digitsToNat s.data).map (fun n => (n : Int))
  | .num n => if 0 ≤ n then some n else none
  | _ => none

/-- One entry of the list returned by `get_route_permissions`. -/
structure RolePermInfo where
  role_id : Int
  route_id : Int
  role_name : String
deriving DecidableEq

/-- The rows the backfill inserts: one per existing role whose id occurs
among the numeric `allowed_roles` entries. -/
def metaBackfillRows (db : DB) (route_id : Int) (entries : List JValue) :
    List RoutePermission :=
  (db.roles.filter (fun r => decide (r.id ∈ entries.filterMap pyDigitInt))).map
    (fun r => RoutePermission.mk r.id route_id)

/-- The backfill block of `get_route_permissions` (lines 317-352): when the
route has no grant rows but a truthy meta with a truthy `allowed_roles`,
rows are created for the existing roles among the numeric entries and
committed; every exception inside the block (TypeError from iterating a
non-iterable, or the unique-index violation at commit when the role table
itself has duplicate ids) is caught and logged, leaving the store and the
empty row list as they were. -/
def backfillFromMeta (db : DB) (route : Route) (route_id : Int)
    (permissions : List RoutePermission) : DB × List RoutePermission :=
  if permissions.isEmpty && metaTruthy route.meta then
    match (match route.meta with
           | some (.str _ p) => p.getD (.obj [])
           | some (.json v) => v
           | none => .null) with
    | .obj fs =>
      match jGet (.obj fs) "allowed_roles" with
      | some av =>
        if av.truthy then
          match pyIter av with
          | none => (db, permissions)
          | some entries =>
            if (metaBackfillRows db route_id entries).Nodup then
              ({ db with routePermissions :=
                   db.routePermissions ++ metaBackfillRows db route_id entries },
               (db.routePermissions ++
                 metaBackfillRows db route_id entries).filter
                   (fun p => p.route_id == route_id))
            else (db, permissions)
        else (db, permissions)
      | none => (db, permissions)
    | _ => (db, permissions)
  else (db, permissions)

/-- services/route_service.py `RouteService.get_route_permissions`: a read
endpoint that, besides querying, backfills grant rows from the meta
descriptor (see `backfillFromMeta`) and then joins the rows with the roles
table to build its response. -/
def get_route_permissions (db : DB) (route_id : Int) : DB × List RolePermInfo :=
  match db.routes.find? (fun r => r.id == route_id) with
  | none => (db, [])
  | some route =>
    match backfillFromMeta db route route_id
        (db.routePermissions.filter (fun p => p.route_id == route_id)) with
    | (db2, permissions2) =>
      (db2, permissions2.filterMap (fun perm =>
        (db2.roles.find? (fun r => r.id == perm.role_id)).map
          (fun role => RolePermInfo.mk role.id route_id role.name)))

/-! ### Claim C10: get_route_permissions is not a pure query -/

/-- C10: for a route with zero grant rows whose meta `allowed_roles` lists
numeric ids of existing roles, calling `get_route_permissions` INSERTS one
grant row per such role and commits them: the store after the read is the
old store plus the new rows, hence differs from the store before — the
read has a write side effect. -/
theorem c10_read_has_write_effect (db : DB) (rid : Int) (route : Route)
    (fs : List (String × JValue)) (entries : List JValue)
    (hfind : db.routes.find? (fun r => r.id == rid) = some route)
    (hempty : db.routePermissions.filter (fun p => p.route_id == rid) = [])
    (hmeta : route.meta = some (.json (.obj fs)))
    (hallowed : jGet (.obj fs) "allowed_roles" = some (.arr entries))
    (hat : (JValue.arr entries).truthy = true)
    (hnodup : (metaBackfillRows db rid entries).Nodup)
    (hnonempty : metaBackfillRows db rid entries ≠ []) :
    (get_route_permissions db rid).1.routePermissions =
      db.routePermissions ++ metaBackfillRows db rid entries ∧
    (get_route_permissions db rid).1 ≠ db := by
  have hfs : fs.isEmpty = false := by
    cases fs with
    | nil => simp [jGet] at hallowed
    | cons a as => rfl
  have hbf : backfillFromMeta db route rid
      (db.routePermissions.filter (fun p => p.route_id == rid)) =
      ({ db with routePermissions :=
           db.routePermissions ++ metaBackfillRows db rid entries },
       (db.routePermissions ++ metaBackfillRows db rid entries).filter
         (fun p => p.route_id == rid)) := by
    unfold backfillFromMeta
    rw [hempty, hmeta]
    rw [if_pos (by simp [metaTruthy, JValue.truthy, hfs])]
    simp only [hallowed]
    rw [if_pos hat]
    simp only [pyIter]
    rw [if_pos hnodup]
  have hmain : (get_route_permissions db rid).1.routePermissions =
      db.routePermissions ++ metaBackfillRows db rid entries := by
    unfold get_route_permissions
    rw [hfind]
    simp only [hbf]
  refine ⟨hmain, ?_⟩
  intro hdb
  have hp := congrArg DB.routePermissions hdb
  rw [hmain] at hp
  have hlen := congrArg List.length hp
  rw [List.length_append] at hlen
  have hzero : (metaBackfillRows db rid entries).length = 0 := by omega
  rw [List.length_eq_zero] at hzero
  exact hnonempty hzero

/-- Concrete store for the C10 witness: route 1 has no grant rows and meta
`{"allowed_roles": ["7"]}`; role 7 exists. -/
def c10Db : DB :=
  ⟨[⟨1, some (.json (.obj [("allowed_roles", .arr [.str "7"])])), none, none⟩],
   [⟨7, "Inspector", []⟩], [], []⟩

/-- C10, witness: the read on `c10Db` leaves a new grant row behind. -/
theorem c10_witness :
    c10Db.routePermissions = [] ∧
    (get_route_permissions c10Db 1).1.routePermissions = [⟨7, 1⟩] ∧
    (get_route_permissions c10Db 1).1 ≠ c10Db := by
  have h := c10_read_has_write_effect c10Db 1
    ⟨1, some (.json (.obj [("allowed_roles", .arr [.str "7"])])), none, none⟩
    [("allowed_roles", .arr [.str "7"])] [.str "7"]
    rfl rfl rfl rfl (by decide) (by decide) (by decide)
  refine ⟨rfl, ?_, h.2⟩
  rw [h.1]
  rfl

/-! ### db/migrations/migrate_route_permissions_data.py: the reconciliation
migration.  The run is factored into three perms-independent phases that
mirror the script's control flow: per-route derivation of the
`allowed_roles` entries (`deriveAllowed`), resolution of each entry to a
role id or a discard (`entryCandidate` / `resolvePairs` — resolution reads
only the roles table), and the guarded inserts in traversal order
(`applyCands` — the `filter_by(...).first()` existence check runs under
autoflush, so it sees committed rows plus the rows pending in the session,
which is exactly the accumulated `cur` list).  Any TypeError
(iterating or `in`-testing a non-container, `int(None)`, appending to a
non-list) escapes the per-entry `except ValueError`, reaches the outer
handler and rolls the whole run back: modelled as `none`, store
unchanged. -/

/-- Python `int(s)` for the strings found in stored role-id lists:
an optional sign followed by ASCII digits (Python also strips whitespace
and allows underscores; such strings do not occur in stored role ids, and
a string this parser rejects simply takes the role-NAME fallback like any
other non-numeric string). -/
def pyIntOfString (s : String) : Option Int :=
  match s.data with
  | '-' :: rest => (digitsToNat rest).map (fun n => -(n : Int))
  | '+' :: rest => (digitsToNat rest).map (fun n => (n : Int))
  | _ => (digitsToNat s.data).map (fun n => (n : Int))

/-- Outcome of Python `int(x)` on a decoded JSON value. -/
inductive PyIntRes where
  | ok (n : Int)
  | valueErr
  | typeErr

/-- `int(x)`: strings parse or raise ValueError; ints pass through; bools
are their int value; None, lists and dicts raise TypeError. -/
def pyInt : JValue → PyIntRes
  | .str s =>
      match pyIntOfString s with
      | some n => .ok n
      | none => .valueErr
  | .num n => .ok n
  | .bool b => .ok (if b then 1 else 0)
  | .null => .typeErr
  | .arr _ => .typeErr
  | .obj _ => .typeErr

def isPrefixList : List Char → List Char → Bool
  | [], _ => true
  | _ :: _, [] => false
  | a :: as, b :: bs => a == b && isPrefixList as bs

def strContainsSub (needle : List Char) : List Char → Bool
  | [] => needle.isEmpty
  | b :: bs => isPrefixList needle (b :: bs) || strContainsSub needle bs

/-- Python `t in v` for a decoded JSON value `v` and string `t`: lists use
element equality (a string equals only an equal string), strings use
substring search, dicts use key membership; ints, bools and None raise
TypeError (`none`). -/
def pyContains (v : JValue) (t : String) : Option Bool :=
  match v with
  | .arr xs => some (xs.any (fun x =>
      match x with
      | .str s => s == t
      | _ => false))
  | .str s => some (strContainsSub t.data s.data)
  | .obj fs => some (fs.any (fun f => f.1 == t))
  | _ => none

/-- Per-route outcome of the derivation phase. -/
inductive MigStep where
  | skip
  | err
  | entries (es : List JValue)

def iterStep (v : JValue) : MigStep :=
  match pyIter v with
  | none => .err
  | some es => .entries es

/-- The `allowed_roles` derivation of the migration body for a decoded
meta dict: start from `meta.get('allowed_roles', [])`; when that is falsy
and `permission` is truthy, take `permission['roles']` (if dict with
truthy roles) or every role's id (if `permission == "*"`); then append the
super-admin role's id unless already contained (`in`/`append` on
non-containers raise, aborting the run); finally iterate. -/
def deriveFromJson (roles : List Role) (v : JValue) : MigStep :=
  match v with
  | .obj fields =>
    let allowed0 := (jGet (.obj fields) "allowed_roles").getD (.arr [])
    let allowed1 :=
      if !allowed0.truthy &&
         ((jGet (.obj fields) "permission").map JValue.truthy).getD false then
        match (jGet (.obj fields) "permission").getD .null with
        | .obj pf =>
            if ((jGet (.obj pf) "roles").map JValue.truthy).getD false then
              (jGet (.obj pf) "roles").getD .null
            else allowed0
        | .str s =>
            if s == "*" then JValue.arr (roles.map (fun r => .str (toString r.id)))
            else allowed0
        | _ => allowed0
      else allowed0
    match roles.find? (fun r => r.name == SUPER_ADMIN_ROLE) with
    | none => iterStep allowed1
    | some sa =>
      match pyContains allowed1 (toString sa.id) with
      | none => .err
      | some true => iterStep allowed1
      | some false =>
        match allowed1 with
        | .arr xs => iterStep (.arr (xs ++ [.str (toString sa.id)]))
        | _ => .err
  | _ => .skip

/-- The route-level gate of the migration loop: falsy meta skips the
route, an undecodable meta string skips the route (`except: continue` —
unlike the access check, which downgrades to `{}`), a non-dict skips; a
dict goes through `deriveFromJson`. -/
def deriveAllowed (roles : List Role) (route : Route) : MigStep :=
  if !metaTruthy route.meta then .skip
  else
    match route.meta with
    | some (.str _ (some v)) => deriveFromJson roles v
    | some (.str _ none) => .skip
    | some (.json v) => deriveFromJson roles v
    | none => .skip

/-- Flattened `(route_id, entry)` worklist of the run, in traversal order;
`none` when some route's derivation raises. -/
def migFlat (roles : List Role) : List Route → Option (List (Int × JValue))
  | [] => some []
  | r :: rs =>
    match deriveAllowed roles r with
    | .skip => migFlat roles rs
    | .err => none
    | .entries es =>
      match migFlat roles rs with
      | none => none
      | some rest => some (es.map (fun e => (r.id, e)) ++ rest)

/-- Outcome of processing one `allowed_roles` entry. -/
inductive EntryRes where
  | err
  | discard
  | add (role_id : Int)

/-- One entry of the per-route loop: `int(entry)` (guarded insert when the
id exists in `roles_dict`, silent discard otherwise), ValueError retried
as a role-NAME lookup, TypeError aborting the run. -/
def entryCandidate (roles : List Role) (entry : JValue) : EntryRes :=
  match pyInt entry with
  | .ok n => if roles.any (fun r => r.id == n) then .add n else .discard
  | .valueErr =>
      match entry with
      | .str s =>
          match roles.find? (fun r => r.name == s) with
          | some r => .add r.id
          | none => .discard
      | _ => .discard
  | .typeErr => .err

/-- Resolution of the whole worklist; `none` when an entry raises
TypeError.  Resolution reads only the roles table, never the grant
rows. -/
def resolvePairs (roles : List Role) : List (Int × JValue) →
    Option (List (Int × Option Int))
  | [] => some []
  | (rid, e) :: rest =>
    match entryCandidate roles e with
    | .err => none
    | .discard =>
      match resolvePairs roles rest with
      | none => none
      | some l => some ((rid, none) :: l)
    | .add n =>
      match resolvePairs roles rest with
      | none => none
      | some l => some ((rid, some n) :: l)

/-- The guarded inserts in traversal order: `cur` is what the existence
query sees (committed rows plus pending inserts, by autoflush), `adds`
the rows created by this run. -/
def applyCands : List RoutePermission → List RoutePermission →
    List (Int × Option Int) → List RoutePermission × List RoutePermission
  | cur, adds, [] => (cur, adds)
  | cur, adds, (_, none) :: rest => applyCands cur adds rest
  | cur, adds, (rid, some n) :: rest =>
      if RoutePermission.mk n rid ∈ cur then applyCands cur adds rest
      else applyCands (cur ++ [RoutePermission.mk n rid])
             (adds ++ [RoutePermission.mk n rid]) rest

/-- db/migrations/migrate_route_permissions_data.py `upgrade`: the whole
run; `some (newStore, createdRows)` on success, `none` when an exception
aborts it (the rollback leaves the store unchanged). -/
def upgradeM (db : DB) : Option (DB × List RoutePermission) :=
  match migFlat db.roles db.routes with
  | none => none
  | some pairs =>
    match resolvePairs db.roles pairs with
    | none => none
    | some cands =>
      match applyCands db.routePermissions [] cands with
      | (cur, adds) => some ({ db with routePermissions := cur }, adds)

/-! Invariants of the guarded-insert pass. -/

theorem applyCands_shape :
    ∀ (cands : List (Int × Option Int)) (cur adds c2 a2 : List RoutePermission),
      applyCands cur adds cands = (c2, a2) → ∃ δ, c2 = cur ++ δ ∧ a2 = adds ++ δ
  | [], cur, adds, c2, a2, h => by
    simp only [applyCands] at h
    cases h
    exact ⟨[], by simp, by simp⟩
  | (rid, none) :: rest, cur, adds, c2, a2, h => by
    simp only [applyCands] at h
    exact applyCands_shape rest cur adds c2 a2 h
  | (rid, some n) :: rest, cur, adds, c2, a2, h => by
    simp only [applyCands] at h
    by_cases hmem : RoutePermission.mk n rid ∈ cur
    · rw [if_pos hmem] at h
      exact applyCands_shape rest cur adds c2 a2 h
    · rw [if_neg hmem] at h
      obtain ⟨δ, h1, h2⟩ := applyCands_shape rest _ _ c2 a2 h
      exact ⟨RoutePermission.mk n rid :: δ, by simp [h1], by simp [h2]⟩

theorem applyCands_superset
    (cands : List (Int × Option Int)) (cur adds c2 a2 : List RoutePermission)
    (h : applyCands cur adds cands = (c2, a2)) : ∀ p ∈ cur, p ∈ c2 := by
  obtain ⟨δ, h1, -⟩ := applyCands_shape cands cur adds c2 a2 h
  intro p hp
  rw [h1]
  exact List.mem_append_left δ hp

theorem applyCands_cover :
    ∀ (cands : List (Int × Option Int)) (cur adds c2 a2 : List RoutePermission),
      applyCands cur adds cands = (c2, a2) →
      ∀ rid n, (rid, some n) ∈ cands → RoutePermission.mk n rid ∈ c2
  | [], cur, adds, c2, a2, h => by
    intro rid n hmem
    exact absurd hmem (List.not_mem_nil _)
  | (rid0, none) :: rest, cur, adds, c2, a2, h => by
    intro rid n hmem
    simp only [applyCands] at h
    rcases List.mem_cons.mp hmem with heq | hrest
    · simp at heq
    · exact applyCands_cover rest cur adds c2 a2 h rid n hrest
  | (rid0, some m) :: rest, cur, adds, c2, a2, h => by
    intro rid n hmem
    simp only [applyCands] at h
    rcases List.mem_cons.mp hmem with heq | hrest
    · obtain ⟨h1, h2⟩ := Prod.mk.injEq .. ▸ heq
      obtain rfl := h1
      obtain rfl : n = m := by simpa using h2
      by_cases hmem2 : RoutePermission.mk n rid ∈ cur
      · rw [if_pos hmem2] at h
        exact applyCands_superset rest cur adds c2 a2 h _ hmem2
      · rw [if_neg hmem2] at h
        exact applyCands_superset rest _ _ c2 a2 h _ (by simp)
    · by_cases hmem2 : RoutePermission.mk m rid0 ∈ cur
      · rw [if_pos hmem2] at h
        exact applyCands_cover rest cur adds c2 a2 h rid n hrest
      · rw [if_neg hmem2] at h
        exact applyCands_cover rest _ _ c2 a2 h rid n hrest

theorem applyCands_idem :
    ∀ (cands : List (Int × Option Int)) (cur adds : List RoutePermission),
      (∀ rid n, (rid, some n) ∈ cands → RoutePermission.mk n rid ∈ cur) →
      applyCands cur adds cands = (cur, adds)
  | [], cur, adds, _ => rfl
  | (rid0, none) :: rest, cur, adds, h => by
    simp only [applyCands]
    exact applyCands_idem rest cur adds
      (fun rid n hm => h rid n (List.mem_cons.mpr (Or.inr hm)))
  | (rid0, some m) :: rest, cur, adds, h => by
    simp only [applyCands]
    rw [if_pos (h rid0 m (List.mem_cons.mpr (Or.inl rfl)))]
    exact applyCands_idem rest cur adds
      (fun rid n hm => h rid n (List.mem_cons.mpr (Or.inr hm)))

theorem applyCands_fresh :
    ∀ (cands : List (Int × Option Int)) (c0 cur adds c2 a2 : List RoutePermission),
      applyCands cur adds cands = (c2, a2) →
      cur = c0 ++ adds → adds.Nodup → (∀ p ∈ adds, p ∉ c0) →
      a2.Nodup ∧ ∀ p ∈ a2, p ∉ c0
  | [], c0, cur, adds, c2, a2, h, hcur, hnd, hfr => by
    simp only [applyCands] at h
    cases h
    exact ⟨hnd, hfr⟩
  | (rid0, none) :: rest, c0, cur, adds, c2, a2, h, hcur, hnd, hfr => by
    simp only [applyCands] at h
    exact applyCands_fresh rest c0 cur adds c2 a2 h hcur hnd hfr
  | (rid0, some m) :: rest, c0, cur, adds, c2, a2, h, hcur, hnd, hfr => by
    simp only [applyCands] at h
    by_cases hmem : RoutePermission.mk m rid0 ∈ cur
    · rw [if_pos hmem] at h
      exact applyCands_fresh rest c0 cur adds c2 a2 h hcur hnd hfr
    · rw [if_neg hmem] at h
      refine applyCands_fresh rest c0 _ _ c2 a2 h (by rw [hcur, List.append_assoc]) ?_ ?_
      · rw [List.nodup_append]
        refine ⟨hnd, List.nodup_singleton _, ?_⟩
        intro p hp hq
        rw [List.mem_singleton] at hq
        subst hq
        exact hmem (hcur ▸ List.mem_append_right c0 hp)
      · intro p hp
        rcases List.mem_append.mp hp with hp1 | hp2
        · exact hfr p hp1
        · rw [List.mem_singleton] at hp2
          subst hp2
          intro hc0
          exact hmem (hcur ▸ List.mem_append_left adds hc0)

/-! ### Claim C6: the reconciliation migration is idempotent -/

/-- C6: the migration is idempotent and never inserts a duplicate
(role_id, route_id) pair: a completed run re-run on its own output creates
zero new rows, and the rows a run creates are pairwise distinct and absent
from the starting store.  (An aborted run — an exception rolled back —
creates no rows at all, so both properties hold for it trivially.) -/
theorem c6_migration_idempotent (db db2 : DB) (added : List RoutePermission)
    (h : upgradeM db = some (db2, added)) :
    upgradeM db2 = some (db2, []) ∧
    added.Nodup ∧ ∀ p ∈ added, p ∉ db.routePermissions := by
  unfold upgradeM at h
  split at h
  · exact absurd h (by simp)
  · rename_i pairs hflat
    split at h
    · exact absurd h (by simp)
    · rename_i cands hres
      split at h
      rename_i cur adds hac
      have h2 := Option.some.inj h
      have hdb2 : ({ db with routePermissions := cur } : DB) = db2 :=
        congrArg Prod.fst h2
      have hadded : adds = added := congrArg Prod.snd h2
      subst hadded
      subst hdb2
      refine ⟨?_, ?_⟩
      · have hcover := applyCands_cover cands db.routePermissions [] cur adds hac
        have hidem : applyCands cur [] cands = (cur, []) :=
          applyCands_idem cands cur [] hcover
        unfold upgradeM
        simp only [hflat, hres, hidem]
      · exact applyCands_fresh cands db.routePermissions db.routePermissions
          [] cur adds hac (by simp) (by simp) (by simp)

/-- Concrete store for the C6 witness: one route whose meta allows role 7
by id and names the super-admin role, both of which exist. -/
def c6Db : DB :=
  ⟨[⟨1, some (.json (.obj [("allowed_roles", .arr [.str "7"])])), none, none⟩],
   [⟨7, "Inspector", []⟩, ⟨3, "超级管理员", []⟩], [], []⟩

/-- The store after the first C6 run: rows for role 7 and the appended
super-admin role 3. -/
def c6Db2 : DB :=
  ⟨[⟨1, some (.json (.obj [("allowed_roles", .arr [.str "7"])])), none, none⟩],
   [⟨7, "Inspector", []⟩, ⟨3, "超级管理员", []⟩], [],
   [⟨7, 1⟩, ⟨3, 1⟩]⟩

/-- C6, witness: the first run on `c6Db` creates rows (7,1) and (3,1); the
second run on its output creates zero rows. -/
theorem c6_witness :
    upgradeM c6Db = some (c6Db2, [⟨7, 1⟩, ⟨3, 1⟩]) ∧
    upgradeM c6Db2 = some (c6Db2, []) ∧
    [(⟨7, 1⟩ : RoutePermission), ⟨3, 1⟩].Nodup := by
  have h1 : upgradeM c6Db = some (c6Db2, [⟨7, 1⟩, ⟨3, 1⟩]) := by rfl
  have h := c6_migration_idempotent c6Db c6Db2 [⟨7, 1⟩, ⟨3, 1⟩] h1
  exact ⟨h1, h.1, h.2.1⟩

end RBAC
